import Mathlib

/-!
Verification of the batched, atomically-swapped full-index rebuild protocol
of `AlgoliaSearch/models.py` (class `AlgoliaIndex`).

The Python source is shallowly embedded: Python values that can occur in a
document are an inductive `Val`; an attribute of a model instance is either a
plain value or a zero-argument callable (`Attr`); Python dictionaries are
insertion-ordered association lists manipulated through `dictInsert`; the
Algolia client is the external collaborator of the spec, so its operations are
recorded as an `Event` trace, and `save_objects` is modelled as returning a
fresh task handle (the spec fixes `upsert_many(batch) -> task_handle`).
Exceptions are modelled with `Except PyErr`.  Rebuild runs return the trace of
remote operations together with the outcome, so that the trace produced before
a failure is also visible.
-/

namespace AlgoliaSearch

/-- A Python value as it can appear in an indexed document: number, string,
tuple, or dictionary (insertion-ordered association list). -/
inductive Val where
  | int : Int → Val
  | str : String → Val
  | tup : List Val → Val
  | dict : List (String × Val) → Val

/-- An attribute of a Python object: a plain value, or a bound method that is
`callable` and is invoked with zero arguments. -/
inductive Attr where
  | plain : Val → Attr
  | method : (Unit → Val) → Attr

/-- Python `callable(attr)`. -/
def Attr.isCallable : Attr → Bool
  | .plain _ => false
  | .method _ => true

/-- Python `isinstance(attr, tuple)`. -/
def Attr.isTuple : Attr → Bool
  | .plain (.tup _) => true
  | _ => false

/-- Lines 80-82 / 85-87 of the source: `attr = getattr(...); if callable(attr):
attr = attr()`. -/
def resolveAttr : Attr → Val
  | .plain v => v
  | .method f => f ()

/-- A model instance (`instance = model()` / a record of the data source): its
primary key `pk` and its attribute lookup (`getattr`), which is partial —
`none` models an `AttributeError` on access. -/
structure Instance where
  pk : Val
  attrs : String → Option Attr

/-- The Django model class as seen by `AlgoliaIndex.__init__`: its class name
(`model.__name__`), `model._meta.get_all_field_names()`, attribute lookup on a
fresh instance `model()`, and attribute lookup on the class itself (used by the
`geo_field` check, line 55: `getattr(model, self.geo_field)`). -/
structure Model where
  name : String
  allFields : List String
  instAttrs : String → Option Attr
  classAttrs : String → Option Attr

/-- The Python exceptions that the embedded code can raise.
`algoliaIndexError` is the repository's `AlgoliaIndexError` (the configuration
error of the spec); the others are builtin Python exceptions. -/
inductive PyErr where
  | attributeError : String → PyErr
  | algoliaIndexError : String → PyErr
  | valueError : String → PyErr
  | indexError : PyErr
deriving DecidableEq

/-- `getattr` on an instance: raises `AttributeError` when the name does not
resolve. -/
def getInstAttr (inst : Instance) (name : String) : Except PyErr Attr :=
  match inst.attrs name with
  | none => .error (.attributeError name)
  | some a => .ok a

/-- Python dictionary assignment `d[k] = v`: overwrite in place if the key is
present, else append (insertion order is preserved). -/
def dictInsert (d : List (String × Val)) (k : String) (v : Val) : List (String × Val) :=
  if d.any (fun kv => kv.1 = k) then
    d.map (fun kv => if kv.1 = k then (k, v) else kv)
  else
    d ++ [(k, v)]

/-- Dictionary lookup `d[k]` (first matching key, which is the only one by
construction of `dictInsert`). -/
def dlookup (k : String) : List (String × Val) → Option Val
  | [] => none
  | (k', v) :: rest => if k' = k then some v else dlookup k rest

/-- `AlgoliaIndex.__build_object` (lines 76-89): start from
`{'objectID': instance.pk}`, add one entry per configured field (callables are
invoked with zero arguments, other attributes are read directly), and, when a
geo field is configured, add `{'lat': attr[0], 'lng': attr[1]}` under
`'_geoloc'`.  Per the interface contract a geo value is a tuple; a resolved geo
value that is not a tuple with at least two components is a build-time failure
(Python raises `IndexError`/`TypeError` there). -/
def buildFields (inst : Instance) : List String → List (String × Val) →
    Except PyErr (List (String × Val))
  | [], tmp => .ok tmp
  | f :: fs, tmp =>
    match inst.attrs f with
    | none => .error (.attributeError f)
    | some a => buildFields inst fs (dictInsert tmp f (resolveAttr a))

def buildObject (fields : List String) (geoField : Option String) (inst : Instance) :
    Except PyErr (List (String × Val)) :=
  match buildFields inst fields [("objectID", inst.pk)] with
  | .error e => .error e
  | .ok tmp =>
    match geoField with
    | none => .ok tmp
    | some g =>
      match inst.attrs g with
      | none => .error (.attributeError g)
      | some a =>
        match resolveAttr a with
        | .tup (x :: y :: _) =>
            .ok (dictInsert tmp "_geoloc" (.dict [("lat", x), ("lng", y)]))
        | _ => .error .indexError

/-- One remote operation of the Algolia client, tagged with the name of the
index it is performed on.  `saveObjects` records the uploaded batch and the
task handle the engine returned for it. -/
inductive Event where
  | setSettings : String → List (String × Val) → Event
  | clearIndex : String → Event
  | saveObjects : String → List (List (String × Val)) → Nat → Event
  | waitTask : String → Nat → Event
  | moveIndex : String → String → Event

def Event.isMove : Event → Bool
  | .moveIndex _ _ => true
  | _ => false

def Event.isWait : Event → Bool
  | .waitTask _ _ => true
  | _ => false

/-- Whether an operation touches (reads from, writes to, or renames onto) the
index named `n`. -/
def Event.touches : Event → String → Bool
  | .setSettings i _, n => i = n
  | .clearIndex i, n => i = n
  | .saveObjects i _ _, n => i = n
  | .waitTask i _, n => i = n
  | .moveIndex src dst, n => src = n || dst = n

/-- The batches carried by the `saveObjects` events of a trace, in order. -/
def saveBatches (tr : List Event) : List (List (List (String × Val))) :=
  tr.filterMap (fun e =>
    match e with
    | .saveObjects _ c _ => some c
    | _ => none)

/-- The task handle returned by the last flush of a trace, if any (the value
the Python variable `result` holds after the upload loop). -/
def lastSaveTask : List Event → Option Nat
  | [] => none
  | e :: tr =>
    (lastSaveTask tr).or
      (match e with
       | .saveObjects _ _ t => some t
       | _ => none)

/-- Number of events of a trace satisfying `p`. -/
def countE (p : Event → Bool) (tr : List Event) : Nat := (tr.filter p).length

/-- An `AlgoliaIndex` binding after construction: the validated field names,
the geo field, the declared settings and the resolved primary index name.  The
shadow index is the one `__set_index` opens as `index_name + '_tmp'`. -/
structure Binding where
  fields : List String
  geoField : Option String
  settings : List (String × Val)
  indexName : String

def shadowName (b : Binding) : String := b.indexName ++ "_tmp"

/-- The shared upload loop of `index_all` (lines 112-121) and `reindex_all`
(lines 129-139): build each record's document, append it to the in-memory
batch, flush to `target` whenever the batch has reached `batchSize`, and flush
the remaining partial batch after the stream is exhausted.  `result` is the
handle of the last flush (`None` initially); `next` numbers the task handles
the engine hands out.  Returns the trace of flushes together with
`(counts, result, next)` — or the trace produced so far and the error, when a
record fails to build. -/
def uploadLoop (build : Instance → Except PyErr (List (String × Val)))
    (target : String) (batchSize : Nat) :
    List Instance → List (List (String × Val)) → Nat → Nat → Option Nat →
    List Event × Except PyErr (Nat × Option Nat × Nat)
  | [], batch, counts, next, result =>
    if batch.length > 0 then
      ([.saveObjects target batch next], .ok (counts, some next, next + 1))
    else
      ([], .ok (counts, result, next))
  | inst :: rest, batch, counts, next, result =>
    match build inst with
    | .error e => ([], .error e)
    | .ok doc =>
      if (batch ++ [doc]).length ≥ batchSize then
        let r := uploadLoop build target batchSize rest [] (counts + 1) (next + 1) (some next)
        (.saveObjects target (batch ++ [doc]) next :: r.1, r.2)
      else
        uploadLoop build target batchSize rest (batch ++ [doc]) (counts + 1) next result

/-- `AlgoliaIndex.index_all` (lines 108-122): `set_settings` (a no-op when the
settings dictionary is empty, lines 100-103), `clear_index`, then the upload
loop — all against the primary index. -/
def indexAll (b : Binding) (records : List Instance) (batchSize : Nat) :
    List Event × Except PyErr Nat :=
  let pre := (if b.settings.isEmpty then [] else [Event.setSettings b.indexName b.settings]) ++
    [Event.clearIndex b.indexName]
  let r := uploadLoop (buildObject b.fields b.geoField) b.indexName batchSize records [] 0 0 none
  (pre ++ r.1,
   match r.2 with
   | .error e => .error e
   | .ok x => .ok x.1)

/-- `AlgoliaIndex.reindex_all` (lines 124-143): settings (when non-empty) and
clear against the shadow index, the upload loop against the shadow index, then
— only when the last flush returned a (truthy) result — `wait_task` on that
task and the atomic `move_index(index_name + '_tmp', index_name)`. -/
def reindexAll (b : Binding) (records : List Instance) (batchSize : Nat) :
    List Event × Except PyErr Nat :=
  let sh := shadowName b
  let pre := (if b.settings.isEmpty then [] else [Event.setSettings sh b.settings]) ++
    [Event.clearIndex sh]
  match uploadLoop (buildObject b.fields b.geoField) sh batchSize records [] 0 0 none with
  | (tr, .error e) => (pre ++ tr, .error e)
  | (tr, .ok (counts, result, _)) =>
    match result with
    | some t => (pre ++ tr ++ [Event.waitTask sh t, Event.moveIndex sh b.indexName], .ok counts)
    | none => (pre ++ tr, .ok counts)

/-- The class-level configuration of an `AlgoliaIndex` subclass: the declared
`fields` (a single string or a tuple of names), the optional `geo_field`
(`none` models both `None` and any other falsy value, matching the truthiness
test on line 54), the declared `index_name` (`""` models the falsy unset
state, matching line 67) and the declared `settings` dictionary. -/
inductive FieldsDecl where
  | str : String → FieldsDecl
  | tuple : List String → FieldsDecl

structure IndexConf where
  fields : FieldsDecl
  geoField : Option String
  indexName : String
  settings : List (String × Val)

/-- `AlgoliaIndex.__set_index` name resolution (lines 65-72): default to the
model's class name when `index_name` is falsy, then wrap with the process-wide
`ALGOLIA_INDEX_PREFIX` and `ALGOLIA_INDEX_SUFFIX` (each applied only when
truthy, i.e. a non-empty string). -/
def resolveIndexName (indexName modelName pre suf : String) : String :=
  let n := if indexName = "" then modelName else indexName
  let n := if pre = "" then n else pre ++ "_" ++ n
  if suf = "" then n else n ++ "_" ++ suf

/-- Lines 41-42: a plain-string `fields` declaration is normalized to a
one-element tuple. -/
def normFields : FieldsDecl → List String
  | .str s => [s]
  | .tuple fs => fs

/-- The field validation loop of `__init__` (lines 46-51): for each declared
field, `getattr(instance, field)` (an absent attribute raises
`AttributeError`); a callable attribute passes; otherwise the name must be in
`get_all_field_names()`, else `AlgoliaIndexError` is raised. -/
def checkFields (m : Model) : List String → Except PyErr Unit
  | [] => .ok ()
  | f :: fs =>
    match m.instAttrs f with
    | none => .error (.attributeError f)
    | some a =>
      if a.isCallable then checkFields m fs
      else if f ∈ m.allFields then checkFields m fs
      else .error (.algoliaIndexError (f ++ " is not a field of " ++ m.name))

/-- The error message of the `geo_field` check (lines 57-58). -/
def geoFieldMsg : String :=
  "geo_field should be a tuple or a callable that returns a tuple."

/-- The `geo_field` check of `__init__` (lines 53-58): `getattr(model, ...)`
on the class, then require the attribute to be a tuple (of any arity — the
code never checks the length) or a callable. -/
def checkGeo (m : Model) : Option String → Except PyErr Unit
  | none => .ok ()
  | some g =>
    match m.classAttrs g with
    | none => .error (.attributeError g)
    | some a =>
      if a.isTuple || a.isCallable then .ok ()
      else .error (.algoliaIndexError geoFieldMsg)

/-- Python `list.remove(x)`: delete the first occurrence, raise `ValueError`
when absent (line 63: `self.fields.remove('id')`). -/
def removeFirst (x : String) : List String → Except PyErr (List String)
  | [] => .error (.valueError (x ++ " not in list"))
  | y :: ys =>
    if y = x then .ok ys
    else
      match removeFirst x ys with
      | .error e => .error e
      | .ok rest => .ok (y :: rest)

/-- `AlgoliaIndex.__init__` (lines 32-63), in source order: resolve the index
names (`__set_index` performs no remote operation — `init_index` only creates
local handles), normalize a string `fields` declaration, validate every
declared field against a fresh instance, check the `geo_field`, and when no
field was declared default `fields` to `get_all_field_names()` with the first
`'id'` removed. -/
def initIndex (conf : IndexConf) (m : Model) (pre suf : String) : Except PyErr Binding :=
  let name := resolveIndexName conf.indexName m.name pre suf
  let fields := normFields conf.fields
  match checkFields m fields with
  | .error e => .error e
  | .ok _ =>
    match checkGeo m conf.geoField with
    | .error e => .error e
    | .ok _ =>
      match (if fields.isEmpty then removeFirst "id" m.allFields else .ok fields) with
      | .error e => .error e
      | .ok fields2 =>
        .ok { fields := fields2, geoField := conf.geoField,
              settings := conf.settings, indexName := name }

/-! ### Specification-side helpers

`chunksOf B l` splits a list into consecutive chunks of size `B` (last chunk
possibly shorter); `buildAll` is the sequence of documents a record stream
builds to; `saveEvents` is the flush trace the upload loop is proved to
produce. -/

def chunksOf {α : Type _} : Nat → List α → List (List α)
  | _, [] => []
  | 0, a :: l => [a :: l]
  | B + 1, a :: l => (a :: l).take (B + 1) :: chunksOf (B + 1) ((a :: l).drop (B + 1))
termination_by B l => l.length
decreasing_by simp; omega

theorem chunksOf_nil {α : Type _} (B : Nat) : chunksOf B ([] : List α) = [] := by
  simp [chunksOf]

theorem chunksOf_cons {α : Type _} (B : Nat) (hB : 1 ≤ B) (l : List α) (hl : l ≠ []) :
    chunksOf B l = l.take B :: chunksOf B (l.drop B) := by
  match B, l with
  | 0, _ => omega
  | B + 1, [] => exact absurd rfl hl
  | B + 1, a :: l => rw [chunksOf]

theorem chunksOf_len {α : Type _} (B : Nat) (hB : 1 ≤ B) :
    ∀ (n : Nat) (l : List α), l.length ≤ n →
      (chunksOf B l).length = (l.length + B - 1) / B := by
  intro n
  induction n with
  | zero =>
    intro l hl
    have : l = [] := List.length_eq_zero.mp (Nat.le_zero.mp hl)
    subst this
    simp [chunksOf_nil]
    exact (Nat.div_eq_of_lt (by omega)).symm
  | succ n ih =>
    intro l hl
    rcases eq_or_ne l [] with rfl | hne
    · simp [chunksOf_nil]
      exact (Nat.div_eq_of_lt (by omega)).symm
    · rw [chunksOf_cons B hB l hne]
      have hpos : 0 < l.length := List.length_pos.mpr hne
      have hdrop : (l.drop B).length = l.length - B := List.length_drop B l
      rw [List.length_cons, ih (l.drop B) (by omega)]
      rw [hdrop]
      rcases Nat.lt_or_ge l.length B with h | h
      · have h1 : l.length - B = 0 := by omega
        rw [h1]
        have h2 : (0 + B - 1) / B = 0 := Nat.div_eq_of_lt (by omega)
        have h3 : (l.length + B - 1) / B = 1 := by
          apply Nat.div_eq_of_lt_le <;> omega
        omega
      · have h1 : l.length + B - 1 = (l.length - B + B - 1) + B := by omega
        rw [h1, Nat.add_div_right _ (by omega)]

theorem chunksOf_flatten {α : Type _} (B : Nat) (hB : 1 ≤ B) :
    ∀ (n : Nat) (l : List α), l.length ≤ n → (chunksOf B l).flatten = l := by
  intro n
  induction n with
  | zero =>
    intro l hl
    have : l = [] := List.length_eq_zero.mp (Nat.le_zero.mp hl)
    subst this
    simp [chunksOf_nil]
  | succ n ih =>
    intro l hl
    rcases eq_or_ne l [] with rfl | hne
    · simp [chunksOf_nil]
    · rw [chunksOf_cons B hB l hne]
      have hpos : 0 < l.length := List.length_pos.mpr hne
      rw [List.flatten_cons, ih (l.drop B) (by simp [List.length_drop]; omega)]
      exact List.take_append_drop B l

theorem chunksOf_dropLast {α : Type _} (B : Nat) (hB : 1 ≤ B) :
    ∀ (n : Nat) (l : List α), l.length ≤ n →
      ∀ c ∈ (chunksOf B l).dropLast, c.length = B := by
  intro n
  induction n with
  | zero =>
    intro l hl
    have : l = [] := List.length_eq_zero.mp (Nat.le_zero.mp hl)
    subst this
    simp [chunksOf_nil]
  | succ n ih =>
    intro l hl c hc
    rcases eq_or_ne l [] with rfl | hne
    · simp [chunksOf_nil] at hc
    · rw [chunksOf_cons B hB l hne] at hc
      rcases eq_or_ne (chunksOf B (l.drop B)) [] with hrest | hrest
      · rw [hrest] at hc
        simp at hc
      · rw [List.dropLast_cons_of_ne_nil hrest] at hc
        rcases List.mem_cons.mp hc with rfl | hc
        · have hBlen : B ≤ l.length := by
            by_contra hlt
            have : l.drop B = [] := List.drop_eq_nil_of_le (by omega)
            rw [this, chunksOf_nil] at hrest
            exact hrest rfl
          rw [List.length_take]
          omega
        · exact ih (l.drop B) (by simp [List.length_drop]; omega) c hc

theorem chunksOf_ne_nil {α : Type _} (B : Nat) (hB : 1 ≤ B) (l : List α) (hl : l ≠ []) :
    chunksOf B l ≠ [] := by
  rw [chunksOf_cons B hB l hl]
  exact List.cons_ne_nil _ _

/-- Building the whole record stream into documents (the per-record builds the
upload loop performs, collected). -/
def buildAll (build : Instance → Except PyErr (List (String × Val))) :
    List Instance → Except PyErr (List (List (String × Val)))
  | [] => .ok []
  | i :: rest =>
    match build i with
    | .error e => .error e
    | .ok d =>
      match buildAll build rest with
      | .error e => .error e
      | .ok ds => .ok (d :: ds)

theorem buildAll_length (build : Instance → Except PyErr (List (String × Val))) :
    ∀ (records : List Instance) (docs : List (List (String × Val))),
      buildAll build records = .ok docs → docs.length = records.length := by
  intro records
  induction records with
  | nil =>
    intro docs h
    simp [buildAll] at h
    subst h
    rfl
  | cons i rest ih =>
    intro docs h
    simp only [buildAll] at h
    cases hbi : build i with
    | error e => rw [hbi] at h; exact absurd h (by simp)
    | ok d =>
      rw [hbi] at h
      cases hall : buildAll build rest with
      | error e => rw [hall] at h; exact absurd h (by simp)
      | ok ds =>
        rw [hall] at h
        cases h
        simp [ih ds hall]

theorem buildAll_of_forall_isOk (build : Instance → Except PyErr (List (String × Val))) :
    ∀ records : List Instance, (∀ i ∈ records, (build i).isOk = true) →
      ∃ docs, buildAll build records = .ok docs := by
  intro records
  induction records with
  | nil => exact fun _ => ⟨[], rfl⟩
  | cons i rest ih =>
    intro h
    have hi := h i (List.mem_cons_self i rest)
    cases hbi : build i with
    | error e => rw [hbi] at hi; simp [Except.isOk, Except.toBool] at hi
    | ok d =>
      obtain ⟨ds, hds⟩ := ih (fun j hj => h j (List.mem_cons_of_mem i hj))
      exact ⟨d :: ds, by simp [buildAll, hbi, hds]⟩

/-- The flush trace uploading the chunks `cs` to `target` produces, the task
counter starting at `next`. -/
def saveEvents (target : String) : Nat → List (List (List (String × Val))) → List Event
  | _, [] => []
  | next, c :: cs => .saveObjects target c next :: saveEvents target (next + 1) cs

/-- Characterization of the upload loop on a stream whose records all build:
starting from a partial batch shorter than `batchSize`, it flushes exactly the
size-`B` chunks of `batch ++ docs`, counts every record, and ends holding the
task handle of the last flush (or the initial `result` when nothing was
flushed). -/
theorem uploadLoop_ok (build : Instance → Except PyErr (List (String × Val)))
    (target : String) (B : Nat) (hB : 1 ≤ B) :
    ∀ (records : List Instance) (docs batch : List (List (String × Val)))
      (counts next : Nat) (result : Option Nat),
      buildAll build records = .ok docs → batch.length < B →
      uploadLoop build target B records batch counts next result =
        (saveEvents target next (chunksOf B (batch ++ docs)),
         .ok (counts + records.length,
              if (batch ++ docs).isEmpty then result
              else some (next + (chunksOf B (batch ++ docs)).length - 1),
              next + (chunksOf B (batch ++ docs)).length)) := by
  intro records
  induction records with
  | nil =>
    intro docs batch counts next result hdocs hlt
    simp only [buildAll] at hdocs
    cases hdocs
    simp only [List.append_nil, List.length_nil, Nat.add_zero]
    by_cases hb : batch = []
    · subst hb
      simp [uploadLoop, chunksOf_nil, saveEvents]
    · have hpos : 0 < batch.length := List.length_pos.mpr hb
      have hchunks : chunksOf B batch = [batch] := by
        rw [chunksOf_cons B hB batch hb]
        rw [List.take_of_length_le (by omega), List.drop_eq_nil_of_le (by omega), chunksOf_nil]
      rw [hchunks]
      simp [uploadLoop, hpos, saveEvents, hb]
  | cons i rest ih =>
    intro docs batch counts next result hdocs hlt
    simp only [buildAll] at hdocs
    cases hbi : build i with
    | error e => rw [hbi] at hdocs; exact absurd hdocs (by simp)
    | ok d =>
      rw [hbi] at hdocs
      cases hall : buildAll build rest with
      | error e => rw [hall] at hdocs; exact absurd hdocs (by simp)
      | ok ds =>
        rw [hall] at hdocs
        cases hdocs
        have hsplit : batch ++ d :: ds = (batch ++ [d]) ++ ds := by simp
        rw [hsplit]
        simp only [uploadLoop, hbi]
        by_cases hfull : (batch ++ [d]).length ≥ B
        · have hlen : (batch ++ [d]).length = B := by
            simp only [List.length_append, List.length_cons, List.length_nil] at hfull ⊢
            omega
          rw [if_pos hfull]
          have hchunks : chunksOf B ((batch ++ [d]) ++ ds) = (batch ++ [d]) :: chunksOf B ds := by
            rw [chunksOf_cons B hB _ (by simp), ← hlen, List.take_left, List.drop_left]
          rw [hchunks]
          rw [ih ds [] (counts + 1) (next + 1) (some next) hall (by simpa using hB)]
          simp only [List.nil_append, saveEvents]
          refine Prod.ext rfl ?_
          refine congrArg Except.ok ?_
          refine Prod.ext (by simp [List.length_cons]; omega) ?_
          refine Prod.ext ?_ (by simp [List.length_cons]; omega)
          by_cases hds : ds = []
          · subst hds
            simp [chunksOf_nil]
          · rw [if_neg (by simp [hds]), if_neg (by simp)]
            simp only [List.length_cons]
            exact congrArg some (by omega)
        · rw [if_neg hfull]
          rw [ih ds (batch ++ [d]) (counts + 1) next result hall (by omega)]
          refine Prod.ext rfl ?_
          refine congrArg Except.ok ?_
          refine Prod.ext (by simp [List.length_cons]; omega) rfl

/-- Every event the upload loop emits — also on a run aborted by a failing
build — is a flush to `target`. -/
theorem uploadLoop_trace (build : Instance → Except PyErr (List (String × Val)))
    (target : String) (B : Nat) :
    ∀ (records : List Instance) (batch : List (List (String × Val)))
      (counts next : Nat) (result : Option Nat),
      ∀ e ∈ (uploadLoop build target B records batch counts next result).1,
        ∃ c t, e = Event.saveObjects target c t := by
  intro records
  induction records with
  | nil =>
    intro batch counts next result e he
    simp only [uploadLoop] at he
    by_cases hb : batch.length > 0
    · rw [if_pos hb] at he
      simp at he
      exact ⟨batch, next, he⟩
    · rw [if_neg hb] at he
      simp at he
  | cons i rest ih =>
    intro batch counts next result e he
    cases hbi : build i with
    | error er => simp only [uploadLoop, hbi] at he; simp at he
    | ok d =>
      simp only [uploadLoop, hbi] at he
      by_cases hfull : (batch ++ [d]).length ≥ B
      · rw [if_pos hfull] at he
        simp only [List.mem_cons] at he
        rcases he with rfl | he
        · exact ⟨batch ++ [d], next, rfl⟩
        · exact ih [] (counts + 1) (next + 1) (some next) e he
      · rw [if_neg hfull] at he
        exact ih (batch ++ [d]) (counts + 1) next result e he

theorem saveEvents_mem (target : String) :
    ∀ (cs : List (List (List (String × Val)))) (next : Nat),
      ∀ e ∈ saveEvents target next cs, ∃ c t, e = Event.saveObjects target c t := by
  intro cs
  induction cs with
  | nil => intro next e he; simp [saveEvents] at he
  | cons c cs ih =>
    intro next e he
    simp only [saveEvents, List.mem_cons] at he
    rcases he with rfl | he
    · exact ⟨c, next, rfl⟩
    · exact ih (next + 1) e he

theorem saveBatches_saveEvents (target : String) :
    ∀ (cs : List (List (List (String × Val)))) (next : Nat),
      saveBatches (saveEvents target next cs) = cs := by
  intro cs
  induction cs with
  | nil => intro next; rfl
  | cons c cs ih => intro next; simp [saveEvents, saveBatches, List.filterMap_cons]
                    exact ih (next + 1)

theorem saveBatches_append (tr tr' : List Event) :
    saveBatches (tr ++ tr') = saveBatches tr ++ saveBatches tr' := by
  simp [saveBatches, List.filterMap_append]

theorem lastSaveTask_append (tr tr' : List Event) :
    lastSaveTask (tr ++ tr') = (lastSaveTask tr').or (lastSaveTask tr) := by
  induction tr with
  | nil => simp [lastSaveTask]
  | cons e tr ih =>
    simp only [List.cons_append, lastSaveTask]
    rw [show tr.append tr' = tr ++ tr' from rfl, ih, Option.or_assoc]

theorem lastSaveTask_saveEvents (target : String) :
    ∀ (cs : List (List (List (String × Val)))) (next : Nat),
      lastSaveTask (saveEvents target next cs) =
        if cs.isEmpty then none else some (next + cs.length - 1) := by
  intro cs
  induction cs with
  | nil => intro next; rfl
  | cons c cs ih =>
    intro next
    simp only [saveEvents, lastSaveTask, ih (next + 1)]
    by_cases hcs : cs = []
    · subst hcs
      simp [Option.or]
    · rw [if_neg (by simp [hcs]), if_neg (by simp [hcs])]
      simp only [List.length_cons, Option.or]
      exact congrArg some (by have := List.length_pos.mpr hcs; omega)

theorem countE_append (p : Event → Bool) (tr tr' : List Event) :
    countE p (tr ++ tr') = countE p tr + countE p tr' := by
  simp [countE, List.filter_append]

/-- The names `name` and `name + '_tmp'` never collide: the shadow index is
distinct from the primary index. -/
theorem shadow_ne_primary (s : String) : s ++ "_tmp" ≠ s := by
  intro h
  have h1 := congrArg String.length h
  rw [String.length_append] at h1
  have h2 : ("_tmp" : String).length = 4 := rfl
  omega

/-- The settings/clear prefix `reindex_all` emits targets only the shadow
index. -/
theorem pre_events_shadow (b : Binding) (e : Event)
    (he : e ∈ (if b.settings.isEmpty then []
               else [Event.setSettings (shadowName b) b.settings]) ++
          [Event.clearIndex (shadowName b)]) :
    e.touches b.indexName = false ∧ e.touches (shadowName b) = true := by
  have hne : shadowName b ≠ b.indexName := shadow_ne_primary b.indexName
  by_cases hs : b.settings.isEmpty
  · rw [if_pos hs] at he
    simp at he
    subst he
    simp [Event.touches, hne]
  · rw [if_neg hs] at he
    simp at he
    rcases he with rfl | rfl <;> simp [Event.touches, hne]

/-- Claim C4.  In the blue/green rebuild with an empty record stream, the run
succeeds with count 0, no `wait_task` and no `move_index` are ever issued, and
no emitted operation touches the primary index. -/
theorem reindexAll_empty_untouched (b : Binding) (B : Nat) :
    ∃ tr, reindexAll b [] B = (tr, .ok 0) ∧
      (∀ e ∈ tr, e.touches b.indexName = false) ∧
      countE Event.isMove tr = 0 ∧ countE Event.isWait tr = 0 := by
  refine ⟨(if b.settings.isEmpty then []
           else [Event.setSettings (shadowName b) b.settings]) ++
          [Event.clearIndex (shadowName b)], ?_, ?_, ?_, ?_⟩
  · simp [reindexAll, uploadLoop]
  · exact fun e he => (pre_events_shadow b e he).1
  · by_cases hs : b.settings.isEmpty <;>
      simp [hs, countE, Event.isMove]
  · by_cases hs : b.settings.isEmpty <;>
      simp [hs, countE, Event.isWait]

/-- Claim C5.  In the in-place rebuild, the trace is exactly: the settings
push (when settings are non-empty), then one `clear_index` on the primary
index, then only uploads to the primary index — so `clear` happens exactly
once, strictly before any upload, and after the settings. -/
theorem indexAll_clear_before_uploads (b : Binding) (records : List Instance) (B : Nat) :
    ∃ post, (indexAll b records B).1 =
        (if b.settings.isEmpty then [] else [Event.setSettings b.indexName b.settings]) ++
          [Event.clearIndex b.indexName] ++ post ∧
      ∀ e ∈ post, ∃ c t, e = Event.saveObjects b.indexName c t := by
  refine ⟨(uploadLoop (buildObject b.fields b.geoField) b.indexName B records [] 0 0 none).1,
    ?_, ?_⟩
  · simp [indexAll]
  · exact uploadLoop_trace _ _ _ records [] 0 0 none

/-- Claim C6.  In the blue/green rebuild, whatever the stream and however far
the run gets, the trace is a prefix that touches only the shadow index,
optionally followed by the single final `move_index` of the shadow onto the
primary name.  A run aborted during upload or task-wait therefore leaves the
primary index untouched. -/
theorem reindexAll_primary_safe (b : Binding) (records : List Instance) (B : Nat) :
    ∃ tr₀, ((reindexAll b records B).1 = tr₀ ∨
        (reindexAll b records B).1 = tr₀ ++ [Event.moveIndex (shadowName b) b.indexName]) ∧
      ∀ e ∈ tr₀, e.touches b.indexName = false ∧ e.touches (shadowName b) = true := by
  have hne : shadowName b ≠ b.indexName := shadow_ne_primary b.indexName
  have hloop := uploadLoop_trace (buildObject b.fields b.geoField) (shadowName b) B
    records [] 0 0 none
  rcases h : uploadLoop (buildObject b.fields b.geoField) (shadowName b) B records [] 0 0 none
    with ⟨tr, r⟩
  rw [h] at hloop
  have hmem : ∀ e ∈ ((if b.settings.isEmpty then []
        else [Event.setSettings (shadowName b) b.settings]) ++
        [Event.clearIndex (shadowName b)]) ++ tr,
      e.touches b.indexName = false ∧ e.touches (shadowName b) = true := by
    intro e he
    rcases List.mem_append.mp he with he | he
    · exact pre_events_shadow b e he
    · obtain ⟨c, t, rfl⟩ := hloop e he
      refine ⟨by simp [Event.touches, hne], by simp [Event.touches]⟩
  simp only [reindexAll]
  rw [h]
  cases r with
  | error e' => exact ⟨_, Or.inl rfl, hmem⟩
  | ok x =>
    rcases x with ⟨counts, result, nx⟩
    cases result with
    | none => exact ⟨_, Or.inl rfl, hmem⟩
    | some t =>
      refine ⟨((if b.settings.isEmpty then []
          else [Event.setSettings (shadowName b) b.settings]) ++
          [Event.clearIndex (shadowName b)]) ++ tr ++ [Event.waitTask (shadowName b) t],
        Or.inr ?_, ?_⟩
      · simp
      · intro e he
        rcases List.mem_append.mp he with he | he
        · exact hmem e he
        · simp at he
          subst he
          refine ⟨by simp [Event.touches, hne], by simp [Event.touches]⟩

theorem countE_eq_zero (p : Event → Bool) (tr : List Event)
    (h : ∀ e ∈ tr, p e = false) : countE p tr = 0 := by
  simp only [countE, List.length_eq_zero, List.filter_eq_nil_iff]
  intro e he
  simp [h e he]

theorem chunks_props (B : Nat) (hB : 1 ≤ B) (docs : List (List (String × Val))) :
    (chunksOf B docs).length = (docs.length + B - 1) / B ∧
    ((chunksOf B docs).map List.length).sum = docs.length ∧
    ∀ c ∈ (chunksOf B docs).dropLast, c.length = B := by
  refine ⟨chunksOf_len B hB docs.length docs le_rfl, ?_,
    chunksOf_dropLast B hB docs.length docs le_rfl⟩
  have hfl := chunksOf_flatten B hB docs.length docs le_rfl
  calc ((chunksOf B docs).map List.length).sum
      = (chunksOf B docs).flatten.length := (List.length_flatten _).symm
    _ = docs.length := by rw [hfl]

theorem saveBatches_pre (idx : String) (s : List (String × Val)) :
    saveBatches ((if s.isEmpty then [] else [Event.setSettings idx s]) ++
      [Event.clearIndex idx]) = [] := by
  by_cases hs : s.isEmpty <;> simp [hs, saveBatches]

/-- When the upload loop ends holding a task handle, `reindex_all` waits on it
and then moves the shadow index onto the primary name. -/
theorem reindexAll_eq_some (b : Binding) (records : List Instance) (B : Nat)
    (tr : List Event) (counts t nx : Nat)
    (h : uploadLoop (buildObject b.fields b.geoField) (shadowName b) B records [] 0 0 none =
      (tr, .ok (counts, some t, nx))) :
    reindexAll b records B =
      (((if b.settings.isEmpty then [] else [Event.setSettings (shadowName b) b.settings]) ++
        [Event.clearIndex (shadowName b)]) ++ tr ++
        [Event.waitTask (shadowName b) t, Event.moveIndex (shadowName b) b.indexName],
      .ok counts) := by
  simp only [reindexAll]
  rw [h]

/-- When the upload loop never flushed, `reindex_all` skips the wait and the
move. -/
theorem reindexAll_eq_none (b : Binding) (records : List Instance) (B : Nat)
    (tr : List Event) (counts nx : Nat)
    (h : uploadLoop (buildObject b.fields b.geoField) (shadowName b) B records [] 0 0 none =
      (tr, .ok (counts, none, nx))) :
    reindexAll b records B =
      (((if b.settings.isEmpty then [] else [Event.setSettings (shadowName b) b.settings]) ++
        [Event.clearIndex (shadowName b)]) ++ tr,
      .ok counts) := by
  simp only [reindexAll]
  rw [h]

/-- The prefix `reindex_all` emits before the final move never contains a
`move_index`. -/
theorem countE_move_pre_saves (b : Binding) (cs : List (List (List (String × Val))))
    (next : Nat) :
    countE Event.isMove
      (((if b.settings.isEmpty then [] else [Event.setSettings (shadowName b) b.settings]) ++
        [Event.clearIndex (shadowName b)]) ++ saveEvents (shadowName b) next cs) = 0 := by
  refine countE_eq_zero _ _ (fun e he => ?_)
  rcases List.mem_append.mp he with he | he
  · rcases (by by_cases hs : b.settings.isEmpty <;> simp [hs] at he <;> tauto :
      e = Event.setSettings (shadowName b) b.settings ∨
      e = Event.clearIndex (shadowName b)) with rfl | rfl <;> rfl
  · obtain ⟨c, t, rfl⟩ := saveEvents_mem (shadowName b) cs next e he
    rfl

/-- Claim C1.  Blue/green rebuild on a non-empty stream whose records all
build: the trace ends with exactly one `wait_task` followed by the single
`move_index` from the shadow name to the primary name, the waited task is the
one returned by the last flush, every earlier operation is on the shadow
index, and no move occurs before that final one. -/
theorem reindexAll_move_once (b : Binding) (records : List Instance) (B : Nat)
    (hB : 1 ≤ B) (hne : records ≠ [])
    (hok : ∀ i ∈ records, (buildObject b.fields b.geoField i).isOk = true) :
    ∃ tr₀ t, (reindexAll b records B).1 =
        tr₀ ++ [Event.waitTask (shadowName b) t,
                Event.moveIndex (shadowName b) b.indexName] ∧
      lastSaveTask tr₀ = some t ∧
      (∀ e ∈ tr₀, e.touches (shadowName b) = true) ∧
      countE Event.isMove tr₀ = 0 ∧
      countE Event.isMove (reindexAll b records B).1 = 1 := by
  obtain ⟨docs, hdocs⟩ := buildAll_of_forall_isOk _ records hok
  have hdl := buildAll_length _ records docs hdocs
  have hdocs_ne : docs ≠ [] := by
    intro h
    subst h
    exact hne (List.length_eq_zero.mp hdl.symm)
  have hch_ne : chunksOf B docs ≠ [] := chunksOf_ne_nil B hB docs hdocs_ne
  have hloop := uploadLoop_ok (buildObject b.fields b.geoField) (shadowName b) B hB
    records docs [] 0 0 none hdocs (by simpa using hB)
  rw [List.nil_append, if_neg (by simp [hdocs_ne])] at hloop
  have hre := reindexAll_eq_some b records B _ _ _ _ hloop
  rw [hre]
  refine ⟨((if b.settings.isEmpty then []
      else [Event.setSettings (shadowName b) b.settings]) ++
      [Event.clearIndex (shadowName b)]) ++
      saveEvents (shadowName b) 0 (chunksOf B docs),
    0 + (chunksOf B docs).length - 1, ?_, ?_, ?_, ?_, ?_⟩
  · simp
  · rw [lastSaveTask_append, lastSaveTask_saveEvents, if_neg (by simp [hch_ne])]
    rfl
  · intro e he
    rcases List.mem_append.mp he with he | he
    · exact (pre_events_shadow b e he).2
    · obtain ⟨c, t, rfl⟩ := saveEvents_mem (shadowName b) (chunksOf B docs) 0 e he
      simp [Event.touches]
  · exact countE_move_pre_saves b (chunksOf B docs) 0
  · rw [countE_append, countE_move_pre_saves b (chunksOf B docs) 0]
    rfl

theorem indexAll_fst (b : Binding) (records : List Instance) (B : Nat) :
    (indexAll b records B).1 =
      ((if b.settings.isEmpty then [] else [Event.setSettings b.indexName b.settings]) ++
        [Event.clearIndex b.indexName]) ++
      (uploadLoop (buildObject b.fields b.geoField) b.indexName B records [] 0 0 none).1 := rfl

/-- On a fully-building stream, the batches `index_all` flushes are exactly
the size-`B` chunks of the document stream. -/
theorem indexAll_saveBatches (b : Binding) (records : List Instance) (B : Nat)
    (docs : List (List (String × Val))) (hB : 1 ≤ B)
    (hdocs : buildAll (buildObject b.fields b.geoField) records = .ok docs) :
    saveBatches (indexAll b records B).1 = chunksOf B docs := by
  have hloop := uploadLoop_ok (buildObject b.fields b.geoField) b.indexName B hB
    records docs [] 0 0 none hdocs (by simpa using hB)
  rw [List.nil_append] at hloop
  rw [indexAll_fst, hloop, saveBatches_append, saveBatches_pre,
    saveBatches_saveEvents, List.nil_append]

/-- On a fully-building stream, the batches `reindex_all` flushes are exactly
the size-`B` chunks of the document stream. -/
theorem reindexAll_saveBatches (b : Binding) (records : List Instance) (B : Nat)
    (docs : List (List (String × Val))) (hB : 1 ≤ B)
    (hdocs : buildAll (buildObject b.fields b.geoField) records = .ok docs) :
    saveBatches (reindexAll b records B).1 = chunksOf B docs := by
  have hloop := uploadLoop_ok (buildObject b.fields b.geoField) (shadowName b) B hB
    records docs [] 0 0 none hdocs (by simpa using hB)
  rw [List.nil_append] at hloop
  by_cases hd : docs = []
  · subst hd
    rw [if_pos (by simp)] at hloop
    rw [reindexAll_eq_none b records B _ _ _ hloop]
    rw [saveBatches_append, saveBatches_pre, chunksOf_nil, List.nil_append]
    rfl
  · rw [if_neg (by simp [hd])] at hloop
    rw [reindexAll_eq_some b records B _ _ _ _ hloop]
    rw [saveBatches_append, saveBatches_append, saveBatches_pre,
      saveBatches_saveEvents, List.nil_append]
    have h2 : saveBatches [Event.waitTask (shadowName b)
        (0 + (chunksOf B docs).length - 1),
        Event.moveIndex (shadowName b) b.indexName] = [] := rfl
    rw [h2, List.append_nil]

/-- Claim C2.  For every record stream of length N whose records all build and
every batch size B ≥ 1, both rebuilds flush exactly `ceil(N / B)` batches
(computed as `(N + B - 1) / B`, which is 0 when N = 0), the flushed batch
sizes sum to N, and every flushed batch except possibly the last has size
exactly B. -/
theorem rebuild_batch_sizes (b : Binding) (records : List Instance) (B : Nat)
    (hB : 1 ≤ B)
    (hok : ∀ i ∈ records, (buildObject b.fields b.geoField i).isOk = true) :
    (saveBatches (indexAll b records B).1).length = (records.length + B - 1) / B ∧
    ((saveBatches (indexAll b records B).1).map List.length).sum = records.length ∧
    (∀ c ∈ (saveBatches (indexAll b records B).1).dropLast, c.length = B) ∧
    (saveBatches (reindexAll b records B).1).length = (records.length + B - 1) / B ∧
    ((saveBatches (reindexAll b records B).1).map List.length).sum = records.length ∧
    (∀ c ∈ (saveBatches (reindexAll b records B).1).dropLast, c.length = B) := by
  obtain ⟨docs, hdocs⟩ := buildAll_of_forall_isOk _ records hok
  have hdl := buildAll_length _ records docs hdocs
  obtain ⟨hp1, hp2, hp3⟩ := chunks_props B hB docs
  rw [indexAll_saveBatches b records B docs hB hdocs,
    reindexAll_saveBatches b records B docs hB hdocs]
  rw [← hdl]
  exact ⟨hp1, hp2, hp3, hp1, hp2, hp3⟩

/-! ### Document construction (`__build_object`) -/

theorem dictInsert_fresh (d : List (String × Val)) (k : String) (v : Val)
    (h : k ∉ d.map Prod.fst) : dictInsert d k v = d ++ [(k, v)] := by
  have hany : d.any (fun kv => kv.1 = k) = false := by
    rw [List.any_eq_false]
    intro kv hkv
    simp only [decide_eq_true_eq]
    intro he
    exact h (he ▸ List.mem_map_of_mem Prod.fst hkv)
  simp [dictInsert, hany]

theorem dlookup_append (k : String) (d e : List (String × Val)) :
    dlookup k (d ++ e) = (dlookup k d).or (dlookup k e) := by
  induction d with
  | nil => simp [dlookup, Option.or]
  | cons kv d ih =>
    rcases kv with ⟨k', v⟩
    by_cases hk : k' = k
    · simp [dlookup, hk, Option.or]
    · simp only [List.cons_append, dlookup, if_neg hk]
      rw [show d.append e = d ++ e from rfl, ih]

theorem dlookup_eq_none (k : String) (d : List (String × Val))
    (h : k ∉ d.map Prod.fst) : dlookup k d = none := by
  induction d with
  | nil => rfl
  | cons kv d ih =>
    rcases kv with ⟨k', v⟩
    simp only [List.map_cons, List.mem_cons] at h
    push_neg at h
    rw [dlookup, if_neg (fun he => h.1 he.symm), ih h.2]

/-- When every field resolves, is distinct and is absent from the accumulator,
the field loop of `__build_object` appends exactly one entry per field, in
order, each holding the resolved attribute value. -/
theorem buildFields_ok (inst : Instance) :
    ∀ (fs : List String) (tmp : List (String × Val)),
      (∀ f ∈ fs, (inst.attrs f).isSome = true) →
      (∀ f ∈ fs, f ∉ tmp.map Prod.fst) →
      fs.Nodup →
      ∃ rest, buildFields inst fs tmp = .ok (tmp ++ rest) ∧
        rest.map Prod.fst = fs ∧
        ∀ f a, f ∈ fs → inst.attrs f = some a →
          dlookup f rest = some (resolveAttr a) := by
  intro fs
  induction fs with
  | nil =>
    intro tmp _ _ _
    exact ⟨[], by simp [buildFields], rfl, by simp⟩
  | cons f fs ih =>
    intro tmp hattr hdis hnd
    have hf := hattr f (List.mem_cons_self f fs)
    obtain ⟨a, ha⟩ := Option.isSome_iff_exists.mp hf
    have hnotin : f ∉ fs := (List.nodup_cons.mp hnd).1
    have hins : dictInsert tmp f (resolveAttr a) = tmp ++ [(f, resolveAttr a)] :=
      dictInsert_fresh tmp f _ (hdis f (List.mem_cons_self f fs))
    obtain ⟨rest', heq, hkeys, hlook⟩ := ih (tmp ++ [(f, resolveAttr a)])
      (fun g hg => hattr g (List.mem_cons_of_mem f hg))
      (fun g hg => by
        simp only [List.map_append, List.mem_append, List.map_cons]
        push_neg
        refine ⟨hdis g (List.mem_cons_of_mem f hg), ?_⟩
        simp only [List.map_nil, List.mem_singleton]
        exact fun he => hnotin (he ▸ hg))
      (List.nodup_cons.mp hnd).2
    refine ⟨(f, resolveAttr a) :: rest', ?_, ?_, ?_⟩
    · simp only [buildFields, ha, hins, heq]
      simp
    · simp [hkeys]
    · intro g a' hg ha'
      rcases List.mem_cons.mp hg with rfl | hg
      · rw [ha] at ha'
        cases ha'
        rw [dlookup, if_pos rfl]
      · have hgf : g ≠ f := fun he => hnotin (he ▸ hg)
        rw [dlookup, if_neg (fun he => hgf he.symm)]
        exact hlook g a' hg ha'

/-- The key the geo sub-object occupies when a geo field is configured. -/
def geoKeys : Option String → List String
  | none => []
  | some _ => ["_geoloc"]

/-- The configured geo selector resolves on the record to a tuple with at
least two components (Python `attr[0]` / `attr[1]` succeed). -/
def geoOk : Option String → Instance → Prop
  | none, _ => True
  | some g, inst =>
    ∃ a x y rest, inst.attrs g = some a ∧ resolveAttr a = Val.tup (x :: y :: rest)

/-- Claim C3.  `__build_object` produces a document whose keys are exactly the
reserved `objectID`, the configured fields in order, and (when a geo selector
is configured) the reserved `_geoloc`; the `objectID` entry holds the record's
primary key, every field entry holds the resolved attribute (callables
invoked, plain attributes read directly) and the geo entry holds
`lat`/`lng` taken from the first two tuple components.  No configured field is
dropped. -/
theorem buildObject_spec (fs : List String) (geo : Option String) (inst : Instance)
    (h1 : "objectID" ∉ fs) (h2 : "_geoloc" ∉ fs) (hnd : fs.Nodup)
    (hattr : ∀ f ∈ fs, (inst.attrs f).isSome = true)
    (hgeo : geoOk geo inst) :
    ∃ d, buildObject fs geo inst = .ok d ∧
      d.map Prod.fst = "objectID" :: (fs ++ geoKeys geo) ∧
      dlookup "objectID" d = some inst.pk ∧
      (∀ f a, f ∈ fs → inst.attrs f = some a → dlookup f d = some (resolveAttr a)) ∧
      (∀ g a x y rest, geo = some g → inst.attrs g = some a →
        resolveAttr a = Val.tup (x :: y :: rest) →
        dlookup "_geoloc" d = some (Val.dict [("lat", x), ("lng", y)])) := by
  obtain ⟨rest, heq, hkeys, hlook⟩ := buildFields_ok inst fs [("objectID", inst.pk)]
    hattr
    (fun f hf => by
      simp only [List.map_cons, List.map_nil, List.mem_singleton]
      exact fun he => h1 (he ▸ hf))
    hnd
  have heq' : buildFields inst fs [("objectID", inst.pk)] =
      .ok (("objectID", inst.pk) :: rest) := by simpa using heq
  have hkeysMain : (("objectID", inst.pk) :: rest).map Prod.fst = "objectID" :: fs := by
    simp [hkeys]
  have hlookObj : dlookup "objectID" (("objectID", inst.pk) :: rest) = some inst.pk := by
    rw [dlookup, if_pos rfl]
  have hlookF : ∀ f a, f ∈ fs → inst.attrs f = some a →
      dlookup f (("objectID", inst.pk) :: rest) = some (resolveAttr a) := by
    intro f a hf ha
    have hne : f ≠ "objectID" := fun he => h1 (he ▸ hf)
    rw [dlookup, if_neg (fun he => hne he.symm)]
    exact hlook f a hf ha
  cases geo with
  | none =>
    refine ⟨("objectID", inst.pk) :: rest, ?_, ?_, hlookObj, hlookF, ?_⟩
    · simp only [buildObject, heq']
    · simp [hkeysMain, geoKeys]
    · intro g a x y r hg
      exact absurd hg (by simp)
  | some g =>
    obtain ⟨a₀, x₀, y₀, r₀, hga, hres⟩ := hgeo
    have hfresh : "_geoloc" ∉ (("objectID", inst.pk) :: rest).map Prod.fst := by
      rw [hkeysMain]
      simp only [List.mem_cons]
      push_neg
      exact ⟨by simp, h2⟩
    have hins : dictInsert (("objectID", inst.pk) :: rest) "_geoloc"
        (.dict [("lat", x₀), ("lng", y₀)]) =
        (("objectID", inst.pk) :: rest) ++
          [("_geoloc", .dict [("lat", x₀), ("lng", y₀)])] :=
      dictInsert_fresh _ _ _ hfresh
    refine ⟨(("objectID", inst.pk) :: rest) ++
      [("_geoloc", .dict [("lat", x₀), ("lng", y₀)])], ?_, ?_, ?_, ?_, ?_⟩
    · simp only [buildObject, heq', hga, hres, hins]
    · simp [hkeysMain, geoKeys, hkeys]
    · rw [dlookup_append, hlookObj]
      rfl
    · intro f a hf ha
      rw [dlookup_append, hlookF f a hf ha]
      rfl
    · intro g' a' x' y' r' hg' ha' hres'
      cases hg'
      rw [hga] at ha'
      cases ha'
      rw [hres] at hres'
      have hxy : x₀ = x' ∧ y₀ = y' := by
        injection hres' with h
        injection h with hx h
        injection h with hy _
        exact ⟨hx, hy⟩
      obtain ⟨rfl, rfl⟩ := hxy
      rw [dlookup_append,
        dlookup_eq_none "_geoloc" (("objectID", inst.pk) :: rest) hfresh]
      rfl

/-! ### Binding construction (`__init__` / `__set_index`) -/

theorem string_of_length_zero (s : String) (h : s.length = 0) : s = "" := by
  cases s with
  | mk data =>
    have hd : data = [] := List.length_eq_zero.mp h
    subst hd
    rfl

theorem string_append_ne_empty_left (s t : String) (h : s ≠ "") : s ++ t ≠ "" := by
  intro he
  have h1 := congrArg String.length he
  rw [String.length_append] at h1
  exact h (string_of_length_zero s (by simp at h1; omega))

theorem string_append_ne_empty_right (s t : String) (h : t ≠ "") : s ++ t ≠ "" := by
  intro he
  have h1 := congrArg String.length he
  rw [String.length_append] at h1
  exact h (string_of_length_zero t (by simp at h1; omega))

/-- The spec's description of name resolution, written from its words: the
base name, wrapped as `prefix + "_" + name` when a global prefix is
configured, and as `name + "_" + suffix` when a global suffix is configured,
both applied when both are configured. -/
def specWrap (base pre suf : String) : String :=
  (if pre = "" then "" else pre ++ "_") ++ base ++ (if suf = "" then "" else "_" ++ suf)

theorem resolveIndexName_eq_specWrap (idx mn pre suf : String) :
    resolveIndexName idx mn pre suf = specWrap (if idx = "" then mn else idx) pre suf := by
  simp only [resolveIndexName, specWrap]
  by_cases hp : pre = "" <;> by_cases hs : suf = "" <;>
    simp [hp, hs, String.append_assoc]

/-- Whatever branch construction takes, the resolved primary name of a
successfully constructed binding is the `__set_index` resolution. -/
theorem initIndex_ok_indexName (conf : IndexConf) (m : Model) (pre suf : String)
    (b : Binding) (hok : initIndex conf m pre suf = .ok b) :
    b.indexName = resolveIndexName conf.indexName m.name pre suf := by
  simp only [initIndex] at hok
  cases hc : checkFields m (normFields conf.fields) with
  | error e => rw [hc] at hok; exact absurd hok (by simp)
  | ok u =>
    cases u
    rw [hc] at hok
    cases hg : checkGeo m conf.geoField with
    | error e => rw [hg] at hok; exact absurd hok (by simp)
    | ok u =>
      cases u
      rw [hg] at hok
      cases hr : (if (normFields conf.fields).isEmpty then removeFirst "id" m.allFields
          else .ok (normFields conf.fields)) with
      | error e => rw [hr] at hok; exact absurd hok (by simp)
      | ok fs2 =>
        rw [hr] at hok
        cases hok
        rfl

/-- Claim C9.  Name resolution of a successfully constructed binding: the
primary name is the declared name — defaulting to the model's class name when
unset — wrapped by the global prefix and suffix exactly as the spec states
(`prefix + "_" + name`, `name + "_" + suffix`, both when both are set); the
resolved name is non-empty, and the shadow index name is the resolved primary
name plus the fixed `_tmp` suffix. -/
theorem initIndex_names (conf : IndexConf) (m : Model) (pre suf : String) (b : Binding)
    (hm : m.name ≠ "") (hok : initIndex conf m pre suf = .ok b) :
    (conf.indexName = "" → b.indexName = specWrap m.name pre suf) ∧
    (conf.indexName ≠ "" → b.indexName = specWrap conf.indexName pre suf) ∧
    b.indexName ≠ "" ∧
    shadowName b = b.indexName ++ "_tmp" := by
  have hbi := initIndex_ok_indexName conf m pre suf b hok
  rw [resolveIndexName_eq_specWrap] at hbi
  have hbase : (if conf.indexName = "" then m.name else conf.indexName) ≠ "" := by
    by_cases hi : conf.indexName = "" <;> simp [hi, hm]
  refine ⟨?_, ?_, ?_, rfl⟩
  · intro hi
    rw [hbi, if_pos hi]
  · intro hi
    rw [hbi, if_neg hi]
  · rw [hbi]
    simp only [specWrap]
    apply string_append_ne_empty_left
    apply string_append_ne_empty_right
    exact hbase

/-- When some declared field resolves to a non-callable instance attribute
that is not a model field — and every declared field resolves to some
attribute, so that the validation loop is not cut short by an
`AttributeError` first — the loop raises `AlgoliaIndexError`. -/
theorem checkFields_unknown_plain (m : Model) :
    ∀ fs : List String, (∀ g ∈ fs, (m.instAttrs g).isSome = true) →
      ∀ f a, f ∈ fs → m.instAttrs f = some a → a.isCallable = false →
        f ∉ m.allFields →
        ∃ msg, checkFields m fs = .error (.algoliaIndexError msg) := by
  intro fs
  induction fs with
  | nil => intro _ f a hf; exact absurd hf (List.not_mem_nil f)
  | cons g gs ih =>
    intro hall f a hf ha hnc hnf
    obtain ⟨ag, hag⟩ := Option.isSome_iff_exists.mp (hall g (List.mem_cons_self g gs))
    rcases List.mem_cons.mp hf with rfl | hf
    · rw [hag] at ha
      cases ha
      refine ⟨f ++ " is not a field of " ++ m.name, ?_⟩
      simp only [checkFields, hag]
      rw [if_neg (by simp [hnc]), if_neg hnf]
    · by_cases hc : ag.isCallable
      · obtain ⟨msg, hmsg⟩ := ih (fun j hj => hall j (List.mem_cons_of_mem g hj)) f a hf ha hnc hnf
        refine ⟨msg, ?_⟩
        simp only [checkFields, hag]
        rw [if_pos hc]
        exact hmsg
      · by_cases hgm : g ∈ m.allFields
        · obtain ⟨msg, hmsg⟩ := ih (fun j hj => hall j (List.mem_cons_of_mem g hj)) f a hf ha hnc hnf
          refine ⟨msg, ?_⟩
          simp only [checkFields, hag]
          rw [if_neg hc, if_pos hgm]
          exact hmsg
        · refine ⟨g ++ " is not a field of " ++ m.name, ?_⟩
          simp only [checkFields, hag]
          rw [if_neg hc, if_neg hgm]

/-- Claim C7, amended.  When every declared field name resolves to an
instance attribute, a declared name that resolves to a non-callable attribute
and is not a model field makes construction fail with `AlgoliaIndexError`
(no remote operation is modelled in construction at all).  The positive part
of the original claim; the counterexample shows the missing-attribute case
raises `AttributeError` instead. -/
theorem initIndex_unknown_plain_field (conf : IndexConf) (m : Model) (pre suf : String)
    (f : String) (a : Attr)
    (hmem : f ∈ normFields conf.fields)
    (ha : m.instAttrs f = some a)
    (hnc : a.isCallable = false)
    (hnf : f ∉ m.allFields)
    (hall : ∀ g ∈ normFields conf.fields, (m.instAttrs g).isSome = true) :
    ∃ msg, initIndex conf m pre suf = .error (.algoliaIndexError msg) := by
  obtain ⟨msg, hmsg⟩ := checkFields_unknown_plain m (normFields conf.fields) hall
    f a hmem ha hnc hnf
  refine ⟨msg, ?_⟩
  simp only [initIndex, hmsg]

theorem removeFirst_error_is_valueError (x : String) :
    ∀ (l : List String) (e : PyErr), removeFirst x l = .error e →
      ∃ msg, e = .valueError msg := by
  intro l
  induction l with
  | nil =>
    intro e he
    simp only [removeFirst] at he
    cases he
    exact ⟨x ++ " not in list", rfl⟩
  | cons y ys ih =>
    intro e he
    simp only [removeFirst] at he
    by_cases hy : y = x
    · rw [if_pos hy] at he
      exact absurd he (by simp)
    · rw [if_neg hy] at he
      cases hr : removeFirst x ys with
      | error e' =>
        rw [hr] at he
        cases he
        exact ih e hr
      | ok rest => rw [hr] at he; exact absurd he (by simp)

/-- Claim C8, amended.  The `geo_field` check accepts any tuple — regardless
of arity, so a 3-tuple passes — and any callable; it raises
`AlgoliaIndexError` exactly when the class attribute is neither.  Stated for
configurations whose field validation succeeds, so that construction reaches
the geo check. -/
theorem initIndex_geo_check (conf : IndexConf) (m : Model) (pre suf : String)
    (g : String) (a : Attr)
    (hck : checkFields m (normFields conf.fields) = .ok ())
    (hg : conf.geoField = some g)
    (ha : m.classAttrs g = some a) :
    (a.isTuple = false → a.isCallable = false →
      initIndex conf m pre suf = .error (.algoliaIndexError geoFieldMsg)) ∧
    (a.isTuple = true ∨ a.isCallable = true →
      initIndex conf m pre suf ≠ .error (.algoliaIndexError geoFieldMsg)) := by
  constructor
  · intro ht hc
    have hgeo : checkGeo m conf.geoField = .error (.algoliaIndexError geoFieldMsg) := by
      rw [hg]
      simp only [checkGeo, ha]
      rw [if_neg (by simp [ht, hc])]
    simp only [initIndex, hck, hgeo]
  · intro hor
    have hgeo : checkGeo m conf.geoField = .ok () := by
      rw [hg]
      simp only [checkGeo, ha]
      rw [if_pos (by rcases hor with ht | hc
                     · simp [ht]
                     · simp [hc])]
    simp only [initIndex, hck, hgeo]
    cases hr : (if (normFields conf.fields).isEmpty then removeFirst "id" m.allFields
        else .ok (normFields conf.fields)) with
    | ok fs2 => simp
    | error e =>
      by_cases hemp : (normFields conf.fields).isEmpty
      · rw [if_pos hemp] at hr
        obtain ⟨msg, rfl⟩ := removeFirst_error_is_valueError "id" m.allFields e hr
        simp
      · rw [if_neg hemp] at hr
        exact absurd hr (by simp)

theorem removeFirst_of_mem (x : String) :
    ∀ l : List String, x ∈ l → removeFirst x l = .ok (l.erase x) := by
  intro l
  induction l with
  | nil => intro h; exact absurd h (List.not_mem_nil x)
  | cons y ys ih =>
    intro h
    by_cases hy : y = x
    · subst hy
      rw [List.erase_cons_head]
      simp [removeFirst]
    · have hx : x ∈ ys := by
        rcases List.mem_cons.mp h with rfl | hx
        · exact absurd rfl hy
        · exact hx
      simp only [removeFirst, if_neg hy, ih hx]
      rw [List.erase_cons_tail]
      simp [hy]

/-- Claim C10.  With no declared field selectors at all, construction
defaults the field set to every model field except `'id'` (so the primary key
appears in documents only under the reserved `objectID` key); and a declared
single-string `fields` is normalized at construction to the one-element
list holding it. -/
theorem initIndex_default_fields (conf : IndexConf) (m : Model) (pre suf : String)
    (hgeo : conf.geoField = none) :
    (conf.fields = .tuple [] → "id" ∈ m.allFields → m.allFields.Nodup →
      ∃ b, initIndex conf m pre suf = .ok b ∧
        ∀ f, f ∈ b.fields ↔ (f ∈ m.allFields ∧ f ≠ "id")) ∧
    (∀ s a, conf.fields = .str s → m.instAttrs s = some a →
      (a.isCallable = true ∨ s ∈ m.allFields) →
      ∃ b, initIndex conf m pre suf = .ok b ∧ b.fields = [s]) := by
  have hgeoOk : checkGeo m conf.geoField = .ok () := by rw [hgeo]; rfl
  constructor
  · intro hf hid hnd
    have hnf : normFields conf.fields = [] := by rw [hf]; rfl
    have hck : checkFields m ([] : List String) = .ok () := rfl
    have hrm : removeFirst "id" m.allFields = .ok (m.allFields.erase "id") :=
      removeFirst_of_mem "id" m.allFields hid
    refine ⟨⟨m.allFields.erase "id", conf.geoField, conf.settings,
      resolveIndexName conf.indexName m.name pre suf⟩, ?_, ?_⟩
    · simp only [initIndex, hnf, hck, hgeoOk, List.isEmpty_nil, if_pos, hrm]
    · intro f
      rw [List.Nodup.mem_erase_iff hnd]
      tauto
  · intro s a hf ha hor
    have hnf : normFields conf.fields = [s] := by rw [hf]; rfl
    have hck : checkFields m (normFields conf.fields) = .ok () := by
      rw [hnf]
      simp only [checkFields, ha]
      by_cases hc : a.isCallable
      · rw [if_pos hc]
      · rcases hor with hc' | hm2
        · exact absurd hc' hc
        · rw [if_neg hc, if_pos hm2]
    rw [hnf] at hck
    refine ⟨⟨[s], conf.geoField, conf.settings,
      resolveIndexName conf.indexName m.name pre suf⟩, ?_, rfl⟩
    simp only [initIndex, hnf, hck, hgeoOk]
    rw [if_neg (by simp)]

/-! ### Concrete instances for counterexamples and witnesses -/

/-- Whether a construction outcome is the configuration error
(`AlgoliaIndexError`). -/
def isConfigError : Except PyErr Binding → Bool
  | .error (.algoliaIndexError _) => true
  | _ => false

def mBogus : Model :=
  ⟨"Post", ["id", "title"],
   fun n => if n = "id" then some (.plain (.int 0))
            else if n = "title" then some (.plain (.str "x")) else none,
   fun _ => none⟩

def confBogus : IndexConf := ⟨.tuple ["bogus"], none, "", []⟩

/-- Counterexample to claim C7 as stated: the declared field `bogus` is not a
model field and is not callable (it is not even an attribute), yet
construction raises `AttributeError`, not the configuration error
`AlgoliaIndexError`. -/
theorem initIndex_missing_attr_counterexample :
    initIndex confBogus mBogus "" "" = .error (.attributeError "bogus") ∧
    isConfigError (initIndex confBogus mBogus "" "") = false ∧
    (mBogus.instAttrs "bogus").isSome = false ∧
    "bogus" ∉ mBogus.allFields :=
  ⟨rfl, rfl, rfl, by decide⟩

def mExtra : Model :=
  ⟨"Post", ["id", "title"],
   fun n => if n = "id" then some (.plain (.int 0))
            else if n = "title" then some (.plain (.str "x"))
            else if n = "extra" then some (.plain (.int 7)) else none,
   fun _ => none⟩

def confExtra : IndexConf := ⟨.tuple ["extra"], none, "", []⟩

/-- Witness for the amended claim C7: `extra` resolves to a plain attribute,
is not a model field, and construction raises `AlgoliaIndexError`. -/
theorem initIndex_unknown_plain_field_witness :
    ∃ msg, initIndex confExtra mExtra "" "" = .error (.algoliaIndexError msg) :=
  initIndex_unknown_plain_field confExtra mExtra "" "" "extra" (.plain (.int 7))
    (by decide) rfl rfl (by decide) (by decide)

def mGeo3 : Model :=
  ⟨"Spot", ["id", "title"],
   fun n => if n = "id" then some (.plain (.int 0))
            else if n = "title" then some (.plain (.str "x")) else none,
   fun n => if n = "loc" then some (.plain (.tup [.int 1, .int 2, .int 3])) else none⟩

def confGeo3 : IndexConf := ⟨.tuple ["title"], some "loc", "", []⟩

/-- Counterexample to claim C8 as stated: the geo selector resolves to a
3-tuple, and construction succeeds — no `ConfigurationError` is raised; the
arity of the tuple is never checked. -/
theorem initIndex_geo_three_tuple_counterexample :
    (initIndex confGeo3 mGeo3 "" "").isOk = true ∧
    mGeo3.classAttrs "loc" = some (.plain (.tup [.int 1, .int 2, .int 3])) ∧
    Attr.isTuple (.plain (.tup [.int 1, .int 2, .int 3])) = true :=
  ⟨rfl, rfl, rfl⟩

def mGeoStr : Model :=
  ⟨"Spot", ["id", "title"],
   fun n => if n = "id" then some (.plain (.int 0))
            else if n = "title" then some (.plain (.str "x")) else none,
   fun n => if n = "loc" then some (.plain (.str "oops")) else none⟩

/-- Witness for the amended claim C8: a non-tuple, non-callable geo selector
raises `AlgoliaIndexError`, while a 3-tuple one does not. -/
theorem initIndex_geo_check_witness :
    initIndex confGeo3 mGeoStr "" "" = .error (.algoliaIndexError geoFieldMsg) ∧
    initIndex confGeo3 mGeo3 "" "" ≠ .error (.algoliaIndexError geoFieldMsg) :=
  ⟨(initIndex_geo_check confGeo3 mGeoStr "" "" "loc" (.plain (.str "oops"))
      rfl rfl rfl).1 rfl rfl,
   (initIndex_geo_check confGeo3 mGeo3 "" "" "loc"
      (.plain (.tup [.int 1, .int 2, .int 3])) rfl rfl rfl).2 (Or.inl rfl)⟩

def bC1 : Binding := ⟨["title"], none, [], "Post"⟩

def recsC1 : List Instance :=
  [⟨.int 1, fun n => if n = "title" then some (.plain (.str "a")) else none⟩,
   ⟨.int 2, fun n => if n = "title" then some (.plain (.str "b")) else none⟩,
   ⟨.int 3, fun n => if n = "title" then some (.plain (.str "c")) else none⟩]

/-- Witness for claim C1 on a 3-record stream with batch size 2. -/
theorem reindexAll_move_once_witness :
    ∃ tr₀ t, (reindexAll bC1 recsC1 2).1 =
        tr₀ ++ [Event.waitTask (shadowName bC1) t,
                Event.moveIndex (shadowName bC1) bC1.indexName] ∧
      lastSaveTask tr₀ = some t ∧
      (∀ e ∈ tr₀, e.touches (shadowName bC1) = true) ∧
      countE Event.isMove tr₀ = 0 ∧
      countE Event.isMove (reindexAll bC1 recsC1 2).1 = 1 :=
  reindexAll_move_once bC1 recsC1 2 (by decide)
    (List.cons_ne_nil _ _) (by decide)

def bC2 : Binding := ⟨["title"], none, [], "Post"⟩

def recsC2 : List Instance :=
  [⟨.int 1, fun n => if n = "title" then some (.plain (.str "a")) else none⟩,
   ⟨.int 2, fun n => if n = "title" then some (.plain (.str "b")) else none⟩,
   ⟨.int 3, fun n => if n = "title" then some (.plain (.str "c")) else none⟩]

/-- Witness for claim C2: 3 records, batch size 2 — two flushes, sizes 2 and
1, for both rebuild modes. -/
theorem rebuild_batch_sizes_witness :
    (saveBatches (indexAll bC2 recsC2 2).1).length = (recsC2.length + 2 - 1) / 2 ∧
    ((saveBatches (indexAll bC2 recsC2 2).1).map List.length).sum = recsC2.length ∧
    (∀ c ∈ (saveBatches (indexAll bC2 recsC2 2).1).dropLast, c.length = 2) ∧
    (saveBatches (reindexAll bC2 recsC2 2).1).length = (recsC2.length + 2 - 1) / 2 ∧
    ((saveBatches (reindexAll bC2 recsC2 2).1).map List.length).sum = recsC2.length ∧
    (∀ c ∈ (saveBatches (reindexAll bC2 recsC2 2).1).dropLast, c.length = 2) :=
  rebuild_batch_sizes bC2 recsC2 2 (by decide) (by decide)

def instC3 : Instance :=
  ⟨.int 7, fun n => if n = "title" then some (.plain (.str "x"))
           else if n = "loc" then some (.plain (.tup [.int 1, .int 2])) else none⟩

/-- Witness for claim C3, mirroring the spec example: record
`(id 7, title "x", loc (1, 2))` with fields `("title",)` and geo field
`loc`. -/
theorem buildObject_spec_witness :
    ∃ d, buildObject ["title"] (some "loc") instC3 = .ok d ∧
      d.map Prod.fst = "objectID" :: (["title"] ++ geoKeys (some "loc")) ∧
      dlookup "objectID" d = some instC3.pk ∧
      (∀ f a, f ∈ ["title"] → instC3.attrs f = some a →
        dlookup f d = some (resolveAttr a)) ∧
      (∀ g a x y rest, some "loc" = some g → instC3.attrs g = some a →
        resolveAttr a = Val.tup (x :: y :: rest) →
        dlookup "_geoloc" d = some (Val.dict [("lat", x), ("lng", y)])) :=
  buildObject_spec ["title"] (some "loc") instC3 (by decide) (by decide)
    (by decide) (by decide)
    ⟨.plain (.tup [.int 1, .int 2]), .int 1, .int 2, [], rfl, rfl⟩

def bC4 : Binding := ⟨["title"], none, [("k", .str "v")], "Post"⟩

/-- Witness for claim C4 at a concrete binding with non-empty settings and
batch size 5. -/
theorem reindexAll_empty_untouched_witness :
    ∃ tr, reindexAll bC4 [] 5 = (tr, .ok 0) ∧
      (∀ e ∈ tr, e.touches bC4.indexName = false) ∧
      countE Event.isMove tr = 0 ∧ countE Event.isWait tr = 0 :=
  reindexAll_empty_untouched bC4 5

def bC5 : Binding := ⟨["title"], none, [("k", .str "v")], "Post"⟩

def recsC5 : List Instance :=
  [⟨.int 1, fun n => if n = "title" then some (.plain (.str "a")) else none⟩]

/-- Witness for claim C5 at a concrete binding and stream. -/
theorem indexAll_clear_before_uploads_witness :
    ∃ post, (indexAll bC5 recsC5 2).1 =
        (if bC5.settings.isEmpty then []
         else [Event.setSettings bC5.indexName bC5.settings]) ++
          [Event.clearIndex bC5.indexName] ++ post ∧
      ∀ e ∈ post, ∃ c t, e = Event.saveObjects bC5.indexName c t :=
  indexAll_clear_before_uploads bC5 recsC5 2

def bC6 : Binding := ⟨["title"], none, [], "Post"⟩

def recsC6 : List Instance :=
  [⟨.int 1, fun n => if n = "title" then some (.plain (.str "a")) else none⟩,
   ⟨.int 2, fun _ => none⟩]

/-- Witness for claim C6 at a concrete run that aborts on the second record
(its `title` attribute is missing). -/
theorem reindexAll_primary_safe_witness :
    ∃ tr₀, ((reindexAll bC6 recsC6 5).1 = tr₀ ∨
        (reindexAll bC6 recsC6 5).1 = tr₀ ++
          [Event.moveIndex (shadowName bC6) bC6.indexName]) ∧
      ∀ e ∈ tr₀, e.touches bC6.indexName = false ∧
        e.touches (shadowName bC6) = true :=
  reindexAll_primary_safe bC6 recsC6 5

def mC9 : Model :=
  ⟨"Post", ["id", "title"],
   fun n => if n = "id" then some (.plain (.int 0))
            else if n = "title" then some (.plain (.str "x")) else none,
   fun _ => none⟩

def confC9 : IndexConf := ⟨.tuple ["title"], none, "", []⟩

def bC9 : Binding := ⟨["title"], none, [], "pre_Post_suf"⟩

/-- Witness for claim C9: unset declared name, both global prefix and suffix
configured. -/
theorem initIndex_names_witness :
    ((confC9.indexName = "" → bC9.indexName = specWrap mC9.name "pre" "suf") ∧
     (confC9.indexName ≠ "" → bC9.indexName = specWrap confC9.indexName "pre" "suf") ∧
     bC9.indexName ≠ "" ∧
     shadowName bC9 = bC9.indexName ++ "_tmp") :=
  initIndex_names confC9 mC9 "pre" "suf" bC9 (by decide) rfl

def mC10 : Model :=
  ⟨"Post", ["id", "title", "body"],
   fun n => if n = "id" then some (.plain (.int 0))
            else if n = "title" then some (.plain (.str "x"))
            else if n = "body" then some (.plain (.str "y")) else none,
   fun _ => none⟩

def confC10a : IndexConf := ⟨.tuple [], none, "", []⟩

def confC10b : IndexConf := ⟨.str "title", none, "", []⟩

/-- Witness for claim C10: defaulting with no declared fields, and
normalization of a single-string declaration. -/
theorem initIndex_default_fields_witness :
    (∃ b, initIndex confC10a mC10 "" "" = .ok b ∧
      ∀ f, f ∈ b.fields ↔ (f ∈ mC10.allFields ∧ f ≠ "id")) ∧
    (∃ b, initIndex confC10b mC10 "" "" = .ok b ∧ b.fields = ["title"]) :=
  ⟨(initIndex_default_fields confC10a mC10 "" "" rfl).1 rfl (by decide) (by decide),
   (initIndex_default_fields confC10b mC10 "" "" rfl).2 "title" (.plain (.str "x"))
     rfl rfl (Or.inr (by decide))⟩

end AlgoliaSearch
